import Mathlib

/-!
Shallow embedding of the Connect-Four rules engine
(`connect_four_logic.py`, class `ConnectFour`) and proofs of the
specification's claims about it.

The Python engine keeps a 6×7 numpy integer board (row 0 at the top),
a per-column "next free row" table, the current player, a move counter,
a game-over flag and an optional winner.  We model the board as a list
of rows (each a list of `Nat` cell values `0 = EMPTY`, `1 = PLAYER1`,
`2 = PLAYER2`), the next-free-row table as a list of `Int` (the Python
code lets entries reach `-1` to mean "column full"), and the raising of
`RuntimeError` / `ValueError` as an `Except`-style result paired with
the state as it stands when the exception leaves the method (the Python
code performs all of its checks before its first write, so on failure
that state is the caller's original state).
-/

namespace ConnectFour

def ROWS : Nat := 6
def COLS : Nat := 7
def CONNECT : Nat := 4

def EMPTY : Nat := 0
def PLAYER1 : Nat := 1
def PLAYER2 : Nat := 2

/-- The board: a list of `ROWS` rows, each a list of `COLS` cells. -/
abbrev Board := List (List Nat)

/-- `board[r, c]` with out-of-range reads defaulting to `EMPTY`
(the engine only reads in-range cells, which clause `Inv` below makes
precise, so the default is never observed on engine states). -/
def getCell (b : Board) (r c : Nat) : Nat :=
  (b.getD r []).getD c EMPTY

/-- `board[r, c] = v`. -/
def setCell (b : Board) (r c : Nat) (v : Nat) : Board :=
  b.set r ((b.getD r []).set c v)

/-- The mutable attributes of the `ConnectFour` object. -/
structure GameState where
  board : Board
  nextRow : List Int
  currentPlayer : Nat
  movesMade : Nat
  gameOver : Bool
  winner : Option Nat
  deriving Repr, DecidableEq

/-- The three ways `drop_piece` can raise: `RuntimeError` when the game
is over, `ValueError` for an out-of-range column, `ValueError` for a
full column.  The spec names them `InvalidState`, `InvalidColumn`,
`ColumnFull`. -/
inductive DropError where
  | invalidState
  | invalidColumn
  | columnFull
  deriving Repr, DecidableEq

/-- `reset`: overwrite every field with its start-of-game value.  The
incoming state is ignored entirely, exactly as the Python method
assigns every attribute unconditionally. -/
def reset (_g : GameState) : GameState :=
  { board := List.replicate ROWS (List.replicate COLS EMPTY)
    nextRow := List.map (fun _ => ((ROWS : Int) - 1)) (List.range COLS)
    currentPlayer := PLAYER1
    movesMade := 0
    gameOver := false
    winner := none }

/-- The state `__init__` leaves the object in: `__init__` only nulls the
attributes and then calls `reset`, so construction is a `reset`. -/
def initState : GameState :=
  reset { board := [], nextRow := [], currentPlayer := 0,
          movesMade := 0, gameOver := false, winner := none }

/-- One step of the `while` loops of `_count_consecutive`: starting at
`(r, c)` and repeatedly stepping by `(dr, dc)`, count cells that are
in bounds and hold `piece`.  The Python loops are unbounded `while`
loops; `walk` takes a fuel argument, and `walkFuel` below is shown to
exceed the number of iterations any of the engine's direction vectors
can make, so the fuel never runs out on engine calls. -/
def walk (b : Board) (piece : Nat) (dr dc : Int) : Nat → Int → Int → Nat
  | 0, _, _ => 0
  | fuel + 1, r, c =>
    if 0 ≤ r ∧ r < (ROWS : Int) ∧ 0 ≤ c ∧ c < (COLS : Int) ∧
        getCell b r.toNat c.toNat = piece then
      walk b piece dr dc fuel (r + dr) (c + dc) + 1
    else 0

def walkFuel : Nat := ROWS + COLS

/-- `_count_consecutive(row, col, dr, dc, piece)`: 1 for the drop point
itself, plus the forward walk from `(row+dr, col+dc)`, plus the reverse
walk from `(row-dr, col-dc)`. -/
def countConsecutive (b : Board) (row col : Nat) (dr dc : Int) (piece : Nat) : Nat :=
  1 + walk b piece dr dc walkFuel ((row : Int) + dr) ((col : Int) + dc)
    + walk b piece (-dr) (-dc) walkFuel ((row : Int) - dr) ((col : Int) - dc)

/-- The four direction vectors of `_is_winning_move`, in source order. -/
def directions : List (Int × Int) := [(0, 1), (1, 0), (1, 1), (1, -1)]

/-- `_is_winning_move(row, col)`: the piece just placed at `(row, col)`
completes a `CONNECT`-long line along some direction. -/
def isWinningMove (b : Board) (row col : Nat) : Bool :=
  let piece := getCell b row col
  directions.any fun d => CONNECT ≤ countConsecutive b row col d.1 d.2 piece

/-- `drop_piece(col)`.  Returns the state after the call together with
either the `(row, col)` landing square or the error raised.  The three
checks precede the first write in the source, so each error pairs with
the unchanged incoming state. -/
def dropPiece (g : GameState) (col : Int) : GameState × Except DropError (Int × Int) :=
  if g.gameOver then (g, .error .invalidState)
  else if ¬(0 ≤ col ∧ col < (COLS : Int)) then (g, .error .invalidColumn)
  else
    let row : Int := g.nextRow.getD col.toNat 0
    if row < 0 then (g, .error .columnFull)
    else
      let board' := setCell g.board row.toNat col.toNat g.currentPlayer
      let nextRow' := g.nextRow.set col.toNat (row - 1)
      let movesMade' := g.movesMade + 1
      let g₁ : GameState :=
        { g with board := board', nextRow := nextRow', movesMade := movesMade' }
      let g₂ : GameState :=
        if isWinningMove board' row.toNat col.toNat then
          { g₁ with gameOver := true, winner := some g.currentPlayer }
        else if movesMade' = ROWS * COLS then
          { g₁ with gameOver := true }
        else
          { g₁ with currentPlayer :=
              if g.currentPlayer = PLAYER1 then PLAYER2 else PLAYER1 }
      (g₂, .ok (row, col))

/-- Run a list of column choices from a state; `none` as soon as any
drop raises.  "Reachable by successful `dropPiece` calls" means
`playMoves initState ms = some g` for some move list `ms`. -/
def playMoves (g : GameState) : List Int → Option GameState
  | [] => some g
  | col :: rest =>
    match dropPiece g col with
    | (g', .ok _) => playMoves g' rest
    | (_, .error _) => none

/-- The next free row of column `c` (the Python `self._next_row[col]`). -/
def nextRowOf (g : GameState) (c : Nat) : Int :=
  g.nextRow.getD c 0

/-- Structural well-formedness that the Python object has by
construction: the numpy board is always `ROWS × COLS` and the
`_next_row` dict always has an entry in `[-1, ROWS-1]` for every
column. -/
def WF (g : GameState) : Prop :=
  g.board.length = ROWS ∧ (∀ row ∈ g.board, row.length = COLS) ∧
  g.nextRow.length = COLS ∧
  ∀ c < COLS, -1 ≤ nextRowOf g c ∧ nextRowOf g c < (ROWS : Int)

/-- Number of non-`EMPTY` cells on the board. -/
def discCount (b : Board) : Nat :=
  (b.map fun row => row.countP fun v => decide (v ≠ EMPTY)).sum

/-- Number of non-`EMPTY` cells in column `c`. -/
def colCount (b : Board) (c : Nat) : Nat :=
  (List.range ROWS).countP fun r => decide (getCell b r c ≠ EMPTY)

/-- The engine's state invariant: well-formed shape; in each column the
non-empty cells are exactly the rows strictly below the next free row;
cells only hold `0`, `1`, `2`; the player to move is `1` or `2`; the
move counter counts the discs; and a game that is not over has no
winner recorded. -/
def Inv (g : GameState) : Prop :=
  WF g ∧
  (∀ c < COLS, ∀ r < ROWS, (getCell g.board r c = EMPTY ↔ (r : Int) ≤ nextRowOf g c)) ∧
  (∀ r < ROWS, ∀ c < COLS, getCell g.board r c ≤ 2) ∧
  (g.currentPlayer = PLAYER1 ∨ g.currentPlayer = PLAYER2) ∧
  g.movesMade = discCount g.board ∧
  (g.gameOver = false → g.winner = none)

/-- The state after the spec's concrete win scenario — the move list
`[0, 1, 0, 1, 0, 1, 0]` from a fresh game, after which Player 1 has
four discs in column 0 and has won. -/
def wonState : GameState :=
  { board := [[0, 0, 0, 0, 0, 0, 0],
              [0, 0, 0, 0, 0, 0, 0],
              [1, 0, 0, 0, 0, 0, 0],
              [1, 2, 0, 0, 0, 0, 0],
              [1, 2, 0, 0, 0, 0, 0],
              [1, 2, 0, 0, 0, 0, 0]]
    nextRow := [1, 2, 5, 5, 5, 5, 5]
    currentPlayer := 1
    movesMade := 7
    gameOver := true
    winner := some 1 }

/-- The state reached from a fresh game by the single move `0`. -/
def oneMoveState : GameState :=
  { board := [[0, 0, 0, 0, 0, 0, 0],
              [0, 0, 0, 0, 0, 0, 0],
              [0, 0, 0, 0, 0, 0, 0],
              [0, 0, 0, 0, 0, 0, 0],
              [0, 0, 0, 0, 0, 0, 0],
              [1, 0, 0, 0, 0, 0, 0]]
    nextRow := [4, 5, 5, 5, 5, 5, 5]
    currentPlayer := 2
    movesMade := 1
    gameOver := false
    winner := none }

/-- `oneMoveState` after a second drop into column 0. -/
def twoMoveState : GameState :=
  { board := [[0, 0, 0, 0, 0, 0, 0],
              [0, 0, 0, 0, 0, 0, 0],
              [0, 0, 0, 0, 0, 0, 0],
              [0, 0, 0, 0, 0, 0, 0],
              [2, 0, 0, 0, 0, 0, 0],
              [1, 0, 0, 0, 0, 0, 0]]
    nextRow := [3, 5, 5, 5, 5, 5, 5]
    currentPlayer := 1
    movesMade := 2
    gameOver := false
    winner := none }

/-- The state reached by the moves `[0, 1, 0, 1, 0, 1]` — one drop into
column 0 away from Player 1's four-in-a-column win. -/
def preWinState : GameState :=
  { board := [[0, 0, 0, 0, 0, 0, 0],
              [0, 0, 0, 0, 0, 0, 0],
              [0, 0, 0, 0, 0, 0, 0],
              [1, 2, 0, 0, 0, 0, 0],
              [1, 2, 0, 0, 0, 0, 0],
              [1, 2, 0, 0, 0, 0, 0]]
    nextRow := [2, 2, 5, 5, 5, 5, 5]
    currentPlayer := 1
    movesMade := 6
    gameOver := false
    winner := none }

/-- 41 moves that fill the whole board except `(0, 6)` without either
player ever making four in a row. -/
def drawMoves41 : List Int :=
  [1, 0, 0, 1, 1, 0, 1, 0, 0, 1, 0, 1,
   3, 2, 2, 3, 3, 2, 3, 2, 2, 3, 2, 3,
   5, 4, 4, 5, 5, 4, 5, 4, 4, 5, 4, 5,
   6, 6, 6, 6, 6]

/-- The state reached by `drawMoves41`: 41 discs down, one empty cell. -/
def preDrawState : GameState :=
  { board := [[1, 2, 1, 2, 1, 2, 0],
              [1, 2, 1, 2, 1, 2, 1],
              [2, 1, 2, 1, 2, 1, 2],
              [2, 1, 2, 1, 2, 1, 1],
              [1, 2, 1, 2, 1, 2, 2],
              [2, 1, 2, 1, 2, 1, 1]]
    nextRow := [-1, -1, -1, -1, -1, -1, 0]
    currentPlayer := 2
    movesMade := 41
    gameOver := false
    winner := none }

/-- `preDrawState` after the 42nd move: the full-board draw. -/
def drawEndState : GameState :=
  { board := [[1, 2, 1, 2, 1, 2, 2],
              [1, 2, 1, 2, 1, 2, 1],
              [2, 1, 2, 1, 2, 1, 2],
              [2, 1, 2, 1, 2, 1, 1],
              [1, 2, 1, 2, 1, 2, 2],
              [2, 1, 2, 1, 2, 1, 1]]
    nextRow := [-1, -1, -1, -1, -1, -1, -1]
    currentPlayer := 2
    movesMade := 42
    gameOver := true
    winner := none }

end ConnectFour

namespace ConnectFour

/-! ### Basic facts about the board primitives -/

theorem getCell_setCell_self {b : Board} {r c : Nat} {v : Nat}
    (hr : r < b.length) (hc : c < (b.getD r []).length) :
    getCell (setCell b r c v) r c = v := by
  unfold getCell setCell
  rw [List.getD_eq_getElem?_getD (b.set r _) r, List.getElem?_set_eq_of_lt _ hr]
  simp only [Option.getD_some]
  rw [List.getD_eq_getElem?_getD ((b.getD r []).set c v) c,
    List.getElem?_set_eq_of_lt _ (by simpa using hc)]
  rfl

theorem getCell_setCell_ne {b : Board} {r c r' c' : Nat} {v : Nat}
    (h : r' ≠ r ∨ c' ≠ c) :
    getCell (setCell b r c v) r' c' = getCell b r' c' := by
  unfold getCell setCell
  by_cases hrr : r' = r
  · subst hrr
    have hc' : c' ≠ c := h.resolve_left (by simp)
    by_cases hlt : r' < b.length
    · rw [List.getD_eq_getElem?_getD (b.set r' _) r', List.getElem?_set_eq_of_lt _ hlt]
      simp only [Option.getD_some]
      rw [List.getD_eq_getElem?_getD ((b.getD r' []).set c v) c',
        List.getElem?_set_ne (by omega)]
      rw [List.getD_eq_getElem?_getD (b.getD r' []) c', List.getD_eq_getElem?_getD b r']
    · rw [List.getD_eq_getElem?_getD (b.set r' _) r',
        List.getElem?_eq_none (by simpa using hlt)]
      rw [List.getD_eq_getElem?_getD b r', List.getElem?_eq_none (by simpa using hlt)]
  · rw [List.getD_eq_getElem?_getD (b.set r _) r', List.getElem?_set_ne (by omega)]
    rw [List.getD_eq_getElem?_getD b r']

theorem setCell_length {b : Board} {r c v : Nat} :
    (setCell b r c v).length = b.length := by
  simp [setCell]

theorem setCell_row_length {b : Board} {r c v : Nat} {i : Nat} :
    ((setCell b r c v).getD i []).length = (b.getD i []).length := by
  unfold setCell
  by_cases hrr : i = r
  · subst hrr
    by_cases hlt : i < b.length
    · rw [List.getD_eq_getElem?_getD (b.set i _) i, List.getElem?_set_eq_of_lt _ hlt]
      simp
    · rw [List.getD_eq_getElem?_getD (b.set i _) i,
        List.getElem?_eq_none (by simpa using hlt)]
      rw [List.getD_eq_getElem?_getD b i, List.getElem?_eq_none (by simpa using hlt)]
  · rw [List.getD_eq_getElem?_getD (b.set r _) i, List.getElem?_set_ne (by omega)]
    rw [List.getD_eq_getElem?_getD b i]

/-! ### Shape of `dropPiece` on a legal move -/

section DropSuccess

variable {g : GameState} {col : Int}

theorem dropPiece_gameOver_eq (hgo : g.gameOver = true) :
    dropPiece g col = (g, .error .invalidState) := by
  simp [dropPiece, hgo]

theorem dropPiece_badCol_eq (hgo : g.gameOver = false)
    (hcol : ¬(0 ≤ col ∧ col < (COLS : Int))) :
    dropPiece g col = (g, .error .invalidColumn) := by
  simp only [dropPiece, hgo, Bool.false_eq_true, if_false, if_pos hcol]

theorem dropPiece_full_eq (hgo : g.gameOver = false)
    (hcol : 0 ≤ col ∧ col < (COLS : Int))
    (hfull : nextRowOf g col.toNat < 0) :
    dropPiece g col = (g, .error .columnFull) := by
  simp only [dropPiece, hgo, Bool.false_eq_true, if_false, if_neg (not_not_intro hcol)]
  rw [if_pos (show g.nextRow.getD col.toNat 0 < 0 from hfull)]

theorem dropPiece_ok_eq (hgo : g.gameOver = false)
    (hcol : 0 ≤ col ∧ col < (COLS : Int))
    (hfree : 0 ≤ nextRowOf g col.toNat) :
    dropPiece g col =
      (let row : Int := nextRowOf g col.toNat
       let board' := setCell g.board row.toNat col.toNat g.currentPlayer
       let g₁ : GameState :=
         { g with board := board',
                  nextRow := g.nextRow.set col.toNat (row - 1),
                  movesMade := g.movesMade + 1 }
       if isWinningMove board' row.toNat col.toNat then
         { g₁ with gameOver := true, winner := some g.currentPlayer }
       else if g.movesMade + 1 = ROWS * COLS then
         { g₁ with gameOver := true }
       else
         { g₁ with currentPlayer :=
             if g.currentPlayer = PLAYER1 then PLAYER2 else PLAYER1 },
       .ok (nextRowOf g col.toNat, col)) := by
  simp only [dropPiece, hgo, Bool.false_eq_true, if_false, if_neg (not_not_intro hcol)]
  rw [if_neg (not_lt.mpr (show (0 : Int) ≤ g.nextRow.getD col.toNat 0 from hfree))]
  rfl

theorem dropPiece_ok_fields {g : GameState} {col : Int} (hgo : g.gameOver = false)
    (hcol : 0 ≤ col ∧ col < (COLS : Int))
    (hfree : 0 ≤ nextRowOf g col.toNat) :
    (dropPiece g col).1.board =
        setCell g.board (nextRowOf g col.toNat).toNat col.toNat g.currentPlayer ∧
    (dropPiece g col).1.nextRow =
        g.nextRow.set col.toNat (nextRowOf g col.toNat - 1) ∧
    (dropPiece g col).1.movesMade = g.movesMade + 1 ∧
    (dropPiece g col).2 = .ok (nextRowOf g col.toNat, col) := by
  rw [dropPiece_ok_eq hgo hcol hfree]
  dsimp only
  refine ⟨?_, ?_, ?_, rfl⟩ <;> (split <;> first | rfl | (split <;> rfl))

end DropSuccess

/-! ### Membership facts needed to know row lengths -/

theorem row_length_of_WF {g : GameState} (hwf : WF g) {r : Nat} (hr : r < ROWS) :
    (g.board.getD r []).length = COLS := by
  obtain ⟨hlen, hrows, -, -⟩ := hwf
  have hr' : r < g.board.length := by omega
  rw [List.getD_eq_getElem _ _ hr']
  exact hrows _ (List.getElem_mem hr')

end ConnectFour

namespace ConnectFour

/-! ### The claims -/

/-- C1: from a live state (`gameOver` false) with a legal, non-full
column, `drop_piece` places the current player's disc at
`(nextFreeRow[col], col)`, decrements `nextFreeRow[col]`, increments
`movesMade`, and returns exactly that `(row, col)` pair. -/
theorem claim_C1_drop_places_disc (g : GameState) (col : Int)
    (hwf : WF g) (hgo : g.gameOver = false)
    (hcol : 0 ≤ col ∧ col < (COLS : Int))
    (hfree : 0 ≤ nextRowOf g col.toNat) :
    ∃ g', dropPiece g col = (g', .ok (nextRowOf g col.toNat, col)) ∧
      getCell g'.board (nextRowOf g col.toNat).toNat col.toNat = g.currentPlayer ∧
      nextRowOf g' col.toNat = nextRowOf g col.toNat - 1 ∧
      g'.movesMade = g.movesMade + 1 := by
  obtain ⟨hboard, hnext, hmoves, hsnd⟩ := dropPiece_ok_fields hgo hcol hfree
  have hrow_lt : (nextRowOf g col.toNat).toNat < ROWS := by
    have := (hwf.2.2.2 col.toNat (by omega)).2
    omega
  have hcol_lt : col.toNat < COLS := by omega
  refine ⟨(dropPiece g col).1, ?_, ?_, ?_, hmoves⟩
  · rw [← hsnd]
  · rw [hboard]
    exact getCell_setCell_self (by rw [hwf.1]; exact hrow_lt)
      (by rw [row_length_of_WF hwf hrow_lt]; exact hcol_lt)
  · show (dropPiece g col).1.nextRow.getD col.toNat 0 = _
    rw [hnext]
    rw [List.getD_eq_getElem?_getD, List.getElem?_set_eq_of_lt _ (by rw [hwf.2.2.1]; exact hcol_lt)]
    rfl

/-- C1 witness: dropping into column 3 of the fresh board. -/
theorem claim_C1_drop_places_disc_witness :
    ∃ g', dropPiece initState 3 = (g', .ok (nextRowOf initState 3, 3)) ∧
      getCell g'.board (nextRowOf initState 3).toNat 3 = initState.currentPlayer ∧
      nextRowOf g' 3 = nextRowOf initState 3 - 1 ∧
      g'.movesMade = initState.movesMade + 1 :=
  claim_C1_drop_places_disc initState 3 (by unfold WF; decide) (by decide) (by decide)
    (by decide)

/-- C4: `drop_piece` fails exactly under three conditions, checked in
this order: the game being over (`InvalidState`), then an out-of-range
column (`InvalidColumn`), then a full column (`ColumnFull`); otherwise
it succeeds. -/
theorem claim_C4_error_taxonomy (g : GameState) (col : Int) :
    ((dropPiece g col).2 = .error .invalidState ↔ g.gameOver = true) ∧
    ((dropPiece g col).2 = .error .invalidColumn ↔
      g.gameOver = false ∧ ¬(0 ≤ col ∧ col < (COLS : Int))) ∧
    ((dropPiece g col).2 = .error .columnFull ↔
      g.gameOver = false ∧ (0 ≤ col ∧ col < (COLS : Int)) ∧
        nextRowOf g col.toNat < 0) ∧
    ((∃ rc, (dropPiece g col).2 = .ok rc) ↔
      g.gameOver = false ∧ (0 ≤ col ∧ col < (COLS : Int)) ∧
        0 ≤ nextRowOf g col.toNat) := by
  by_cases hgo : g.gameOver = true
  · rw [dropPiece_gameOver_eq hgo]
    simp [hgo]
  · have hgo' : g.gameOver = false := by simpa using hgo
    by_cases hcol : 0 ≤ col ∧ col < (COLS : Int)
    · by_cases hfull : nextRowOf g col.toNat < 0
      · rw [dropPiece_full_eq hgo' hcol hfull]
        simp [hgo', hcol, hfull]
      · have hfree : 0 ≤ nextRowOf g col.toNat := by omega
        obtain ⟨-, -, -, hsnd⟩ := dropPiece_ok_fields hgo' hcol hfree
        rw [hsnd]
        simp [hgo', hcol, hfree]
    · rw [dropPiece_badCol_eq hgo' hcol]
      simp [hgo', hcol]

/-- C5: whenever `drop_piece` fails, the whole state is returned
untouched; in particular once `gameOver` holds, `drop_piece` always
fails with `InvalidState` and mutates nothing. -/
theorem claim_C5_failure_no_mutation (g : GameState) (col : Int) :
    (∀ e, (dropPiece g col).2 = .error e → (dropPiece g col).1 = g) ∧
    (g.gameOver = true → dropPiece g col = (g, .error .invalidState)) := by
  constructor
  · intro e he
    by_cases hgo : g.gameOver = true
    · rw [dropPiece_gameOver_eq hgo]
    · have hgo' : g.gameOver = false := by simpa using hgo
      by_cases hcol : 0 ≤ col ∧ col < (COLS : Int)
      · by_cases hfull : nextRowOf g col.toNat < 0
        · rw [dropPiece_full_eq hgo' hcol hfull]
        · obtain ⟨-, -, -, hsnd⟩ := dropPiece_ok_fields hgo' hcol (by omega)
          rw [hsnd] at he
          exact absurd he (by simp)
      · rw [dropPiece_badCol_eq hgo' hcol]
  · exact dropPiece_gameOver_eq

/-- C5 witness: an out-of-range drop on the fresh state, and a drop on
a finished game, both leave the state alone. -/
theorem claim_C5_failure_no_mutation_witness :
    (dropPiece initState (-1)).1 = initState ∧
    dropPiece wonState 0 = (wonState, .error .invalidState) :=
  ⟨(claim_C5_failure_no_mutation initState (-1)).1 .invalidColumn (by rfl),
   (claim_C5_failure_no_mutation wonState 0).2 rfl⟩

/-- C9: `reset` is a constant map to the initial state — idempotent and
independent of the history — and that state has an all-empty board,
every column open at the bottom row, Player 1 to move, zero moves, the
game not over and no winner. -/
theorem claim_C9_reset_idempotent (g : GameState) :
    reset g = initState ∧ reset (reset g) = reset g ∧
    (reset g).board = List.replicate ROWS (List.replicate COLS EMPTY) ∧
    (∀ c < COLS, nextRowOf (reset g) c = (ROWS : Int) - 1) ∧
    (reset g).currentPlayer = PLAYER1 ∧ (reset g).movesMade = 0 ∧
    (reset g).gameOver = false ∧ (reset g).winner = none := by
  refine ⟨rfl, rfl, rfl, ?_, rfl, rfl, rfl, rfl⟩
  intro c hc
  have hc' : c < 7 := hc
  interval_cases c <;> rfl

/-- C9 witness: resetting a finished game restores the initial state. -/
theorem claim_C9_reset_idempotent_witness :
    reset wonState = initState ∧ nextRowOf (reset wonState) 0 = (ROWS : Int) - 1 :=
  ⟨(claim_C9_reset_idempotent wonState).1,
   (claim_C9_reset_idempotent wonState).2.2.2.1 0 (by decide)⟩

/-! ### The fuel of `walk` never runs out

The Python `while` loops of `_count_consecutive` are unbounded; `walk`
carries fuel.  The lemmas here show that for every direction vector the
engine uses, the loop leaves the board within fewer than `walkFuel`
iterations, so the fuelled walk agrees with the unbounded loop. -/

theorem walk_succ_of_lt {b : Board} {p : Nat} {dr dc : Int} :
    ∀ {f : Nat} {r c : Int}, walk b p dr dc f r c < f →
      walk b p dr dc (f + 1) r c = walk b p dr dc f r c := by
  intro f
  induction f with
  | zero => intro r c h; exact absurd h (Nat.not_lt_zero _)
  | succ f ih =>
    intro r c h
    rw [walk] at h ⊢
    conv_rhs => rw [walk]
    split
    · rename_i hguard
      rw [if_pos hguard] at h
      rw [ih (by omega)]
    · rfl

theorem walk_stable {b : Board} {p : Nat} {dr dc : Int} {f f' : Nat} {r c : Int}
    (h : walk b p dr dc f r c < f) (hf : f ≤ f') :
    walk b p dr dc f' r c = walk b p dr dc f r c := by
  obtain ⟨k, rfl⟩ := Nat.exists_eq_add_of_le hf
  clear hf
  induction k with
  | zero => rfl
  | succ k ih =>
    have : walk b p dr dc (f + k) r c < f + k := by omega
    calc walk b p dr dc (f + (k + 1)) r c
        = walk b p dr dc (f + k) r c := walk_succ_of_lt this
      _ = walk b p dr dc f r c := ih

theorem walk_le_of_dr_pos {b : Board} {p : Nat} {dr dc : Int} (hdr : 0 < dr) :
    ∀ (f : Nat) (r c : Int), 0 ≤ r → walk b p dr dc f r c ≤ ((ROWS : Int) - r).toNat := by
  intro f
  induction f with
  | zero => intro r c _; simp [walk]
  | succ f ih =>
    intro r c hr
    rw [walk]
    split
    · rename_i hguard
      have h6 : r < (ROWS : Int) := hguard.2.1
      have := ih (r + dr) (c + dc) (by omega)
      omega
    · omega

theorem walk_le_of_dr_neg {b : Board} {p : Nat} {dr dc : Int} (hdr : dr < 0) :
    ∀ (f : Nat) (r c : Int), walk b p dr dc f r c ≤ (r + 1).toNat := by
  intro f
  induction f with
  | zero => intro r c; simp [walk]
  | succ f ih =>
    intro r c
    rw [walk]
    split
    · rename_i hguard
      have h0 : 0 ≤ r := hguard.1
      have := ih (r + dr) (c + dc)
      omega
    · omega

theorem walk_le_of_dc_pos {b : Board} {p : Nat} {dc : Int} (hdc : 0 < dc) :
    ∀ (f : Nat) (r c : Int), 0 ≤ c → walk b p 0 dc f r c ≤ ((COLS : Int) - c).toNat := by
  intro f
  induction f with
  | zero => intro r c _; simp [walk]
  | succ f ih =>
    intro r c hc
    rw [walk]
    split
    · rename_i hguard
      have h7 : c < (COLS : Int) := hguard.2.2.2.1
      have := ih (r + 0) (c + dc) (by omega)
      omega
    · omega

theorem walk_le_of_dc_neg {b : Board} {p : Nat} {dc : Int} (hdc : dc < 0) :
    ∀ (f : Nat) (r c : Int), walk b p 0 dc f r c ≤ (c + 1).toNat := by
  intro f
  induction f with
  | zero => intro r c; simp [walk]
  | succ f ih =>
    intro r c
    rw [walk]
    split
    · rename_i hguard
      have h0 : 0 ≤ c := hguard.2.2.1
      have := ih (r + 0) (c + dc)
      omega
    · omega

theorem walk_zero_of_r_neg {b : Board} {p : Nat} {dr dc : Int} {f : Nat} {r c : Int}
    (hr : r < 0) : walk b p dr dc f r c = 0 := by
  cases f with
  | zero => rfl
  | succ f => rw [walk, if_neg (by intro h; omega)]

theorem walk_zero_of_c_neg {b : Board} {p : Nat} {dr dc : Int} {f : Nat} {r c : Int}
    (hc : c < 0) : walk b p dr dc f r c = 0 := by
  cases f with
  | zero => rfl
  | succ f => rw [walk, if_neg (by intro h; omega)]

theorem walk_zero_of_r_ge {b : Board} {p : Nat} {dr dc : Int} {f : Nat} {r c : Int}
    (hr : (ROWS : Int) ≤ r) : walk b p dr dc f r c = 0 := by
  cases f with
  | zero => rfl
  | succ f => rw [walk, if_neg (by intro h; omega)]

theorem walk_zero_of_c_ge {b : Board} {p : Nat} {dr dc : Int} {f : Nat} {r c : Int}
    (hc : (COLS : Int) ≤ c) : walk b p dr dc f r c = 0 := by
  cases f with
  | zero => rfl
  | succ f => rw [walk, if_neg (by intro h; omega)]

/-- Every walk the engine starts — any direction vector of
`_is_winning_move` or its reversal, from any start — makes fewer than
`walkFuel` counted steps, so the fuel never runs out. -/
theorem walk_lt_walkFuel {b : Board} {p : Nat} {dr dc : Int} {f : Nat} {r c : Int}
    (hd : (dr, dc) ∈ directions ∨ (-dr, -dc) ∈ directions) :
    walk b p dr dc f r c < walkFuel := by
  have hfuel : walkFuel = 13 := rfl
  have hR : (ROWS : Int) = 6 := rfl
  have hC : (COLS : Int) = 7 := rfl
  have hcases : dr = 1 ∨ dr = -1 ∨ (dr = 0 ∧ dc = 1) ∨ (dr = 0 ∧ dc = -1) := by
    rcases hd with hd | hd <;> simp [directions] at hd <;> omega
  rcases hcases with h | h | ⟨h, h'⟩ | ⟨h, h'⟩
  · rcases lt_or_le r 0 with hr | hr
    · rw [walk_zero_of_r_neg hr]; omega
    · have hle : walk b p dr dc f r c ≤ ((ROWS : Int) - r).toNat :=
        walk_le_of_dr_pos (by omega) f r c hr
      omega
  · rcases lt_or_le r (ROWS : Int) with hr | hr
    · have hle : walk b p dr dc f r c ≤ (r + 1).toNat :=
        walk_le_of_dr_neg (by omega) f r c
      omega
    · rw [walk_zero_of_r_ge hr]; omega
  · subst h
    rcases lt_or_le c 0 with hc | hc
    · rw [walk_zero_of_c_neg hc]; omega
    · have hle : walk b p 0 dc f r c ≤ ((COLS : Int) - c).toNat :=
        walk_le_of_dc_pos (by omega) f r c hc
      omega
  · subst h
    rcases lt_or_le c (COLS : Int) with hc | hc
    · have hle : walk b p 0 dc f r c ≤ (c + 1).toNat :=
        walk_le_of_dc_neg (by omega) f r c
      omega
    · rw [walk_zero_of_c_ge hc]; omega

/-- With at least `walkFuel` fuel, the walk's value no longer depends
on the fuel: the fuelled walk computes what the Python `while` loop
computes. -/
theorem walk_fuel_irrelevant {b : Board} {p : Nat} {dr dc : Int} {f : Nat} {r c : Int}
    (hd : (dr, dc) ∈ directions ∨ (-dr, -dc) ∈ directions)
    (hf : walkFuel ≤ f) :
    walk b p dr dc f r c = walk b p dr dc walkFuel r c := by
  have h₁ : walk b p dr dc walkFuel r c < walkFuel := walk_lt_walkFuel hd
  exact walk_stable h₁ hf

/-! ### C2: the win check against the spec's description -/

/-- The walk of the spec's win-detection paragraph, written as the spec
phrases it: an explicit counter that the walk keeps incrementing while
the cells are in bounds and match the player. -/
def specWalkAcc (b : Board) (piece : Nat) (dr dc : Int) :
    Nat → Int → Int → Nat → Nat
  | 0, _, _, acc => acc
  | fuel + 1, r, c, acc =>
    if 0 ≤ r ∧ r < (ROWS : Int) ∧ 0 ≤ c ∧ c < (COLS : Int) ∧
        getCell b r.toNat c.toNat = piece then
      specWalkAcc b piece dr dc fuel (r + dr) (c + dc) (acc + 1)
    else acc

/-- The spec's per-axis total: start the counter at 1 for the placed
cell, walk forward along the direction vector, then walk in the exact
opposite direction, incrementing the same counter. -/
def specAxisTotal (b : Board) (row col : Nat) (dr dc : Int) (piece : Nat) : Nat :=
  specWalkAcc b piece (-dr) (-dc) walkFuel ((row : Int) - dr) ((col : Int) - dc)
    (specWalkAcc b piece dr dc walkFuel ((row : Int) + dr) ((col : Int) + dc) 1)

theorem specWalkAcc_eq_acc_add_walk {b : Board} {p : Nat} {dr dc : Int} :
    ∀ (f : Nat) (r c : Int) (acc : Nat),
      specWalkAcc b p dr dc f r c acc = acc + walk b p dr dc f r c := by
  intro f
  induction f with
  | zero => intro r c acc; rfl
  | succ f ih =>
    intro r c acc
    rw [specWalkAcc, walk]
    split
    · rw [ih]; omega
    · omega

theorem specAxisTotal_eq_countConsecutive {b : Board} {row col : Nat}
    {dr dc : Int} {p : Nat} :
    specAxisTotal b row col dr dc p = countConsecutive b row col dr dc p := by
  unfold specAxisTotal countConsecutive
  rw [specWalkAcc_eq_acc_add_walk, specWalkAcc_eq_acc_add_walk]

/-- C2: `_is_winning_move` reports a win exactly when, along one of the
four axes, the contiguous same-piece count through the placed cell —
1 for the cell itself plus the in-bounds matching cells in the forward
and opposite directions — reaches `CONNECT = 4`. -/
theorem claim_C2_win_check (b : Board) (row col : Nat) :
    isWinningMove b row col = true ↔
      ∃ d ∈ directions,
        CONNECT ≤ specAxisTotal b row col d.1 d.2 (getCell b row col) := by
  unfold isWinningMove
  rw [List.any_eq_true]
  simp only [decide_eq_true_eq, specAxisTotal_eq_countConsecutive]

/-! ### Conditions and case analysis of a successful drop -/

theorem dropPiece_ok_conditions {g : GameState} {col : Int} {rc : Int × Int}
    (h : (dropPiece g col).2 = .ok rc) :
    g.gameOver = false ∧ (0 ≤ col ∧ col < (COLS : Int)) ∧
      0 ≤ nextRowOf g col.toNat := by
  by_cases hgo : g.gameOver = true
  · rw [dropPiece_gameOver_eq hgo] at h; simp at h
  · have hgo' : g.gameOver = false := by simpa using hgo
    by_cases hcol : 0 ≤ col ∧ col < (COLS : Int)
    · by_cases hfull : nextRowOf g col.toNat < 0
      · rw [dropPiece_full_eq hgo' hcol hfull] at h; simp at h
      · exact ⟨hgo', hcol, by omega⟩
    · rw [dropPiece_badCol_eq hgo' hcol] at h; simp at h

theorem dropPiece_ok_cases {g : GameState} {col : Int} (hgo : g.gameOver = false)
    (hcol : 0 ≤ col ∧ col < (COLS : Int))
    (hfree : 0 ≤ nextRowOf g col.toNat) :
    (isWinningMove (setCell g.board (nextRowOf g col.toNat).toNat col.toNat
          g.currentPlayer) (nextRowOf g col.toNat).toNat col.toNat = true ∧
      (dropPiece g col).1.gameOver = true ∧
      (dropPiece g col).1.winner = some g.currentPlayer ∧
      (dropPiece g col).1.currentPlayer = g.currentPlayer) ∨
    (isWinningMove (setCell g.board (nextRowOf g col.toNat).toNat col.toNat
          g.currentPlayer) (nextRowOf g col.toNat).toNat col.toNat = false ∧
      g.movesMade + 1 = ROWS * COLS ∧
      (dropPiece g col).1.gameOver = true ∧
      (dropPiece g col).1.winner = g.winner ∧
      (dropPiece g col).1.currentPlayer = g.currentPlayer) ∨
    (isWinningMove (setCell g.board (nextRowOf g col.toNat).toNat col.toNat
          g.currentPlayer) (nextRowOf g col.toNat).toNat col.toNat = false ∧
      g.movesMade + 1 ≠ ROWS * COLS ∧
      (dropPiece g col).1.gameOver = false ∧
      (dropPiece g col).1.winner = g.winner ∧
      (dropPiece g col).1.currentPlayer =
        (if g.currentPlayer = PLAYER1 then PLAYER2 else PLAYER1)) := by
  rw [dropPiece_ok_eq hgo hcol hfree]
  dsimp only
  by_cases hwin : isWinningMove
      (setCell g.board (nextRowOf g col.toNat).toNat col.toNat g.currentPlayer)
      (nextRowOf g col.toNat).toNat col.toNat = true
  · left
    refine ⟨hwin, ?_, ?_, ?_⟩ <;> rw [if_pos hwin]
  · have hwin' : isWinningMove
        (setCell g.board (nextRowOf g col.toNat).toNat col.toNat g.currentPlayer)
        (nextRowOf g col.toNat).toNat col.toNat = false := by
      simpa using hwin
    by_cases hdraw : g.movesMade + 1 = ROWS * COLS
    · right; left
      refine ⟨hwin', hdraw, ?_, ?_, ?_⟩ <;> rw [if_neg hwin, if_pos hdraw]
    · right; right
      refine ⟨hwin', hdraw, ?_, ?_, ?_⟩ <;> rw [if_neg hwin, if_neg hdraw]
      exact hgo

/-! ### Counting discs -/

theorem sum_map_set {α : Type} {l : List α} {x : α} (f : α → Nat) :
    ∀ {i : Nat}, (h : i < l.length) →
      ((l.set i x).map f).sum + f (l.get ⟨i, h⟩) = (l.map f).sum + f x := by
  induction l with
  | nil => intro i h; simp at h
  | cons a t ih =>
    intro i h
    cases i with
    | zero => simp [List.set]; omega
    | succ i =>
      have h' : i < t.length := by simpa using h
      have := ih h'
      simp only [List.set, List.map_cons, List.sum_cons, List.get_cons_succ]
      omega

theorem countP_set {α : Type} {l : List α} {x : α} (p : α → Bool) :
    ∀ {i : Nat}, (h : i < l.length) →
      (l.set i x).countP p + (if p (l.get ⟨i, h⟩) then 1 else 0) =
        l.countP p + (if p x then 1 else 0) := by
  induction l with
  | nil => intro i h; simp at h
  | cons a t ih =>
    intro i h
    cases i with
    | zero => simp [List.set, List.countP_cons]; omega
    | succ i =>
      have h' : i < t.length := by simpa using h
      have := ih h'
      simp only [List.set, List.countP_cons, List.get_cons_succ]
      omega

theorem discCount_setCell {b : Board} {r c v : Nat}
    (hr : r < b.length) (hc : c < (b.getD r []).length)
    (hold : getCell b r c = EMPTY) (hv : v ≠ EMPTY) :
    discCount (setCell b r c v) = discCount b + 1 := by
  have hrow : b.getD r [] = b.get ⟨r, hr⟩ := by
    rw [List.getD_eq_getElem _ _ hr]; rfl
  have hcell : getCell b r c = (b.getD r []).get ⟨c, hc⟩ := by
    unfold getCell
    rw [List.getD_eq_getElem _ _ hc]; rfl
  rw [hcell] at hold
  have h2 : ((b.getD r []).set c v).countP (fun a => decide (a ≠ EMPTY)) =
      (b.getD r []).countP (fun a => decide (a ≠ EMPTY)) + 1 := by
    have h2 := countP_set (l := b.getD r []) (x := v)
      (fun a => decide (a ≠ EMPTY)) hc
    rw [hold] at h2
    rw [if_neg (by simp), if_pos (by simpa using hv)] at h2
    omega
  have h1 := sum_map_set (l := b) (x := (b.getD r []).set c v)
    (fun row => row.countP fun a => decide (a ≠ EMPTY)) hr
  rw [← hrow] at h1
  unfold discCount setCell
  rw [h2] at h1
  omega

/-! ### Preservation of the invariant -/

theorem Inv_initState : Inv initState := by
  unfold Inv WF
  refine ⟨⟨rfl, ?_, rfl, by decide⟩, by decide, by decide, by decide, by decide, by decide⟩
  intro row hrow
  simp only [initState, reset] at hrow
  rw [List.eq_of_mem_replicate hrow]
  rfl

theorem inv_preserved {g : GameState} {col : Int} {g' : GameState} {rc : Int × Int}
    (hinv : Inv g) (h : dropPiece g col = (g', .ok rc)) : Inv g' := by
  have hok : (dropPiece g col).2 = .ok rc := by rw [h]
  obtain ⟨hgo, hcol, hfree⟩ := dropPiece_ok_conditions hok
  obtain ⟨hwf, hprofile, hvals, hplayer, hcount, hwinner⟩ := hinv
  obtain ⟨hblen, hrows, hnlen, hbounds⟩ := hwf
  obtain ⟨hboard, hnext, hmoves, -⟩ := dropPiece_ok_fields hgo hcol hfree
  have hg' : g' = (dropPiece g col).1 := by rw [h]
  subst hg'
  set row : Int := nextRowOf g col.toNat with hrowdef
  have hrowlt : row < (ROWS : Int) := (hbounds col.toNat (by omega)).2
  have hcn : col.toNat < COLS := by omega
  have hrn : row.toNat < ROWS := by omega
  have hrncast : (row.toNat : Int) = row := Int.toNat_of_nonneg hfree
  have hrblen : row.toNat < g.board.length := by omega
  have hrclen : col.toNat < (g.board.getD row.toNat []).length := by
    rw [row_length_of_WF ⟨hblen, hrows, hnlen, hbounds⟩ hrn]; exact hcn
  have hcur_ne : g.currentPlayer ≠ EMPTY := by
    rcases hplayer with h1 | h1 <;> simp [h1, PLAYER1, PLAYER2, EMPTY]
  have hcell_old : getCell g.board row.toNat col.toNat = EMPTY :=
    (hprofile col.toNat hcn row.toNat hrn).mpr (by omega)
  -- next-row lookups in the updated table
  have hnext_at : ∀ c < COLS, nextRowOf (dropPiece g col).1 c =
      if c = col.toNat then row - 1 else nextRowOf g c := by
    intro c hc
    unfold nextRowOf
    rw [hnext]
    by_cases hceq : c = col.toNat
    · subst hceq
      rw [List.getD_eq_getElem?_getD, List.getElem?_set_eq_of_lt _ (by omega)]
      simp
    · rw [List.getD_eq_getElem?_getD, List.getElem?_set_ne (by omega), if_neg hceq]
      rw [List.getD_eq_getElem?_getD]
  have hcell_new : ∀ r' < ROWS, ∀ c' < COLS,
      getCell (dropPiece g col).1.board r' c' =
        if r' = row.toNat ∧ c' = col.toNat then g.currentPlayer
        else getCell g.board r' c' := by
    intro r' _ c' _
    rw [hboard]
    by_cases heq : r' = row.toNat ∧ c' = col.toNat
    · obtain ⟨h1, h2⟩ := heq
      subst h1; subst h2
      rw [if_pos ⟨rfl, rfl⟩]
      exact getCell_setCell_self hrblen hrclen
    · rw [if_neg heq]
      exact getCell_setCell_ne (by tauto)
  refine ⟨⟨?_, ?_, ?_, ?_⟩, ?_, ?_, ?_, ?_, ?_⟩
  · rw [hboard, setCell_length, hblen]
  · intro rw' hrw'
    rw [hboard] at hrw'
    unfold setCell at hrw'
    rcases List.mem_or_eq_of_mem_set hrw' with hmem | heq
    · exact hrows _ hmem
    · rw [heq, List.length_set]
      exact row_length_of_WF ⟨hblen, hrows, hnlen, hbounds⟩ hrn
  · rw [hnext, List.length_set, hnlen]
  · intro c hc
    rw [hnext_at c hc]
    by_cases hceq : c = col.toNat
    · rw [if_pos hceq]
      constructor <;> omega
    · rw [if_neg hceq]
      exact hbounds c hc
  · -- column profile
    intro c hc r hr
    rw [hcell_new r hr c hc, hnext_at c hc]
    by_cases hceq : c = col.toNat
    · rw [if_pos hceq]
      by_cases hreq : r = row.toNat
      · subst hreq
        rw [if_pos ⟨rfl, hceq⟩]
        constructor
        · intro hctr; exact absurd hctr hcur_ne
        · intro hle; exfalso; omega
      · rw [if_neg (by tauto)]
        rw [hprofile c hc r hr, hceq, ← hrowdef]
        omega
    · rw [if_neg (by tauto), if_neg hceq]
      exact hprofile c hc r hr
  · -- cell values
    intro r hr c hc
    rw [hcell_new r hr c hc]
    by_cases heq : r = row.toNat ∧ c = col.toNat
    · rw [if_pos heq]
      rcases hplayer with h1 | h1 <;> simp [h1, PLAYER1, PLAYER2]
    · rw [if_neg heq]
      exact hvals r hr c hc
  · -- current player stays in {1, 2}
    rcases dropPiece_ok_cases hgo hcol hfree with
      ⟨-, -, -, hp⟩ | ⟨-, -, -, -, hp⟩ | ⟨-, -, -, -, hp⟩ <;> rw [hp]
    · exact hplayer
    · exact hplayer
    · rcases hplayer with h1 | h1 <;> simp [h1, PLAYER1, PLAYER2]
  · -- moves made counts the discs
    rw [hmoves, hcount, hboard]
    rw [discCount_setCell hrblen hrclen hcell_old hcur_ne]
  · -- no winner while the game is not over
    rcases dropPiece_ok_cases hgo hcol hfree with
      ⟨-, hgo', hw, -⟩ | ⟨-, -, hgo', hw, -⟩ | ⟨-, -, hgo', hw, -⟩ <;>
      rw [hgo', hw] <;> intro hctr
    · exact absurd hctr (by simp)
    · exact absurd hctr (by simp)
    · exact hwinner hgo

theorem playMoves_inv : ∀ (ms : List Int) (g₀ g : GameState),
    Inv g₀ → playMoves g₀ ms = some g → Inv g := by
  intro ms
  induction ms with
  | nil =>
    intro g₀ g h0 hp
    simp only [playMoves, Option.some.injEq] at hp
    rw [← hp]; exact h0
  | cons col rest ih =>
    intro g₀ g h0 hp
    rw [playMoves] at hp
    rcases hdrop : dropPiece g₀ col with ⟨g₁, res⟩
    rw [hdrop] at hp
    cases res with
    | ok rc => exact ih g₁ g (inv_preserved h0 hdrop) hp
    | error e => simp at hp

theorem reachable_inv {ms : List Int} {g : GameState}
    (h : playMoves initState ms = some g) : Inv g :=
  playMoves_inv ms initState g Inv_initState h

theorem nextRowOf_dropPiece {g : GameState} {col : Int}
    (hnlen : g.nextRow.length = COLS) (hgo : g.gameOver = false)
    (hcol : 0 ≤ col ∧ col < (COLS : Int)) (hfree : 0 ≤ nextRowOf g col.toNat) :
    ∀ c < COLS, nextRowOf (dropPiece g col).1 c =
      if c = col.toNat then nextRowOf g col.toNat - 1 else nextRowOf g c := by
  intro c hc
  obtain ⟨-, hnext, -, -⟩ := dropPiece_ok_fields hgo hcol hfree
  unfold nextRowOf
  rw [hnext]
  by_cases hceq : c = col.toNat
  · subst hceq
    rw [List.getD_eq_getElem?_getD, List.getElem?_set_eq_of_lt _ (by omega)]
    simp [nextRowOf]
  · rw [List.getD_eq_getElem?_getD, List.getElem?_set_ne (by omega), if_neg hceq,
      List.getD_eq_getElem?_getD]

/-- Along a successful play, each column's next-free-row drops by one
for every move into that column. -/
theorem playMoves_nextRow : ∀ (ms : List Int) (g₀ g : GameState), Inv g₀ →
    playMoves g₀ ms = some g → ∀ c < COLS,
      nextRowOf g c = nextRowOf g₀ c - (ms.count (c : Int) : Int) := by
  intro ms
  induction ms with
  | nil =>
    intro g₀ g h0 hp c hc
    simp only [playMoves, Option.some.injEq] at hp
    rw [← hp]
    simp
  | cons col rest ih =>
    intro g₀ g h0 hp c hc
    rw [playMoves] at hp
    rcases hdrop : dropPiece g₀ col with ⟨g₁, res⟩
    rw [hdrop] at hp
    cases res with
    | error e => simp at hp
    | ok rc =>
      have hok : (dropPiece g₀ col).2 = .ok rc := by rw [hdrop]
      obtain ⟨hgo, hcol, hfree⟩ := dropPiece_ok_conditions hok
      have h1 : Inv g₁ := inv_preserved h0 hdrop
      have hnext := nextRowOf_dropPiece h0.1.2.2.1 hgo hcol hfree c hc
      have hg₁ : g₁ = (dropPiece g₀ col).1 := by rw [hdrop]
      rw [← hg₁] at hnext
      have ihc := ih g₁ g h1 hp c hc
      rw [ihc, hnext]
      by_cases hceq : c = col.toNat
      · rw [if_pos hceq, ← hceq]
        have hcount : (col :: rest).count (c : Int) = rest.count (c : Int) + 1 := by
          have hcc : col = (c : Int) := by omega
          rw [hcc]
          simp
        rw [hcount]
        push_cast
        omega
      · rw [if_neg hceq]
        have hcount : (col :: rest).count (c : Int) = rest.count (c : Int) :=
          List.count_cons_of_ne (fun hctr => hceq (by omega)) rest
        rw [hcount]

/-- C3: a successful drop whose placed disc completes four in a row
sets `gameOver`, records the mover as winner, and leaves
`currentPlayer` as that same mover. -/
theorem claim_C3_win_outcome (g g' : GameState) (col row rcol : Int)
    (hdrop : dropPiece g col = (g', .ok (row, rcol)))
    (hwin : isWinningMove g'.board row.toNat rcol.toNat = true) :
    g'.gameOver = true ∧ g'.winner = some g.currentPlayer ∧
      g'.currentPlayer = g.currentPlayer := by
  have hok : (dropPiece g col).2 = .ok (row, rcol) := by rw [hdrop]
  obtain ⟨hgo, hcol, hfree⟩ := dropPiece_ok_conditions hok
  obtain ⟨hboard, -, -, hsnd⟩ := dropPiece_ok_fields hgo hcol hfree
  rw [hdrop] at hsnd
  simp only [Except.ok.injEq, Prod.mk.injEq] at hsnd
  obtain ⟨hrow, hrcol⟩ := hsnd
  have hg' : g' = (dropPiece g col).1 := by rw [hdrop]
  rcases dropPiece_ok_cases hgo hcol hfree with
    ⟨-, h1, h2, h3⟩ | ⟨hnowin, -, -, -, -⟩ | ⟨hnowin, -, -, -, -⟩
  · rw [hg']
    exact ⟨h1, h2, h3⟩
  all_goals
    rw [hg', hboard, hrow, hrcol] at hwin
    rw [hwin] at hnowin
    exact absurd hnowin (by simp)

/-- C3 witness: the spec's seven-move scenario ends with Player 1's
winning drop into column 0. -/
theorem claim_C3_win_outcome_witness :
    wonState.gameOver = true ∧ wonState.winner = some preWinState.currentPlayer ∧
      wonState.currentPlayer = preWinState.currentPlayer :=
  claim_C3_win_outcome preWinState wonState 0 2 0 (by rfl) (by rfl)

/-- C7: along any successful play from the fresh state, `movesMade`
equals the number of non-empty cells on the board. -/
theorem claim_C7_movesMade_counts_discs (ms : List Int) (g : GameState)
    (hreach : playMoves initState ms = some g) :
    g.movesMade = discCount g.board :=
  (reachable_inv hreach).2.2.2.2.1

/-- C7 witness: the seven-move win scenario has seven discs down. -/
theorem claim_C7_movesMade_counts_discs_witness :
    wonState.movesMade = discCount wonState.board :=
  claim_C7_movesMade_counts_discs [0, 1, 0, 1, 0, 1, 0] wonState (by rfl)

/-- C6: in any state reached by successful drops, column `c` holds
exactly `ROWS - (nextFreeRow[c] + 1)` discs, and the non-empty cells of
column `c` are exactly the bottom rows `ROWS-1, …, ROWS-k` where `k`
counts the drops played into `c`. -/
theorem claim_C6_columns_fill_bottom_up (ms : List Int) (g : GameState)
    (hreach : playMoves initState ms = some g) :
    ∀ c < COLS,
      (colCount g.board c : Int) = (ROWS : Int) - (nextRowOf g c + 1) ∧
      ∀ r < ROWS, (getCell g.board r c ≠ EMPTY ↔
        (ROWS : Int) - (ms.count (c : Int) : Int) ≤ (r : Int)) := by
  intro c hc
  have hinv := reachable_inv hreach
  obtain ⟨hwf, hprofile, -, -, -, -⟩ := hinv
  have hnr := playMoves_nextRow ms initState g Inv_initState hreach c hc
  have hinit : nextRowOf initState c = (ROWS : Int) - 1 := by
    have hc7 : c < 7 := hc
    interval_cases c <;> rfl
  rw [hinit] at hnr
  have hbound := hwf.2.2.2 c hc
  constructor
  · have hcong : colCount g.board c =
        (List.range ROWS).countP fun r : Nat => decide (nextRowOf g c < (r : Int)) := by
      unfold colCount
      refine List.countP_congr ?_
      intro r hrmem
      have hr : r < ROWS := by simpa using hrmem
      have hp := hprofile c hc r hr
      constructor
      · intro h1
        have h2 : getCell g.board r c ≠ EMPTY := by simpa using h1
        simp only [decide_eq_true_eq]
        omega
      · intro h1
        simp only [decide_eq_true_eq] at h1
        have h2 : getCell g.board r c ≠ EMPTY := by
          intro hctr
          have := hp.mp hctr
          omega
        simpa using h2
    rw [hcong]
    obtain ⟨hlo, hhi⟩ := hbound
    have hR : (ROWS : Int) = 6 := rfl
    set n := nextRowOf g c with hn
    have hhi' : n < 6 := by omega
    interval_cases n <;> rfl
  · intro r hr
    have hp := hprofile c hc r hr
    rw [ne_eq, hp, hnr]
    have hR : (ROWS : Int) = 6 := rfl
    omega

/-- C6 witness: after the seven-move win scenario, column 0 holds four
discs in rows 5, 4, 3, 2. -/
theorem claim_C6_columns_fill_bottom_up_witness :
    (colCount wonState.board 0 : Int) = (ROWS : Int) - (nextRowOf wonState 0 + 1) ∧
    (getCell wonState.board 2 0 ≠ EMPTY ↔
      (ROWS : Int) - (([0, 1, 0, 1, 0, 1, 0] : List Int).count (0 : Int) : Int) ≤ (2 : Int)) :=
  ⟨(claim_C6_columns_fill_bottom_up [0, 1, 0, 1, 0, 1, 0] wonState (by rfl) 0
      (by decide)).1,
   (claim_C6_columns_fill_bottom_up [0, 1, 0, 1, 0, 1, 0] wonState (by rfl) 0
      (by decide)).2 2 (by decide)⟩

/-- C8 counterexample to the "43rd move" phrasing: in the concrete
draw game, the board becomes full on the 42nd move, and that move —
not a 43rd — sets `gameOver = true` with `winner = none`; once all 42
cells are full a further (43rd) call fails with `InvalidState` and sets
nothing. -/
theorem claim_C8_no_43rd_move :
    playMoves initState drawMoves41 = some preDrawState ∧
    preDrawState.gameOver = false ∧
    dropPiece preDrawState 6 = (drawEndState, .ok (0, 6)) ∧
    drawEndState.movesMade = ROWS * COLS ∧
    drawEndState.gameOver = true ∧
    drawEndState.winner = none ∧
    dropPiece drawEndState 0 = (drawEndState, .error .invalidState) :=
  ⟨rfl, rfl, rfl, rfl, rfl, rfl, rfl⟩

/-- C8 (amended: the board-filling move is the 42nd, not a 43rd): a
successful, non-winning drop that brings `movesMade` to `ROWS * COLS`
ends the game as a draw: `gameOver` becomes true and `winner` stays
`none`. -/
theorem claim_C8_full_board_draw (ms : List Int) (g g' : GameState) (col row rcol : Int)
    (hreach : playMoves initState ms = some g)
    (hdrop : dropPiece g col = (g', .ok (row, rcol)))
    (hnowin : isWinningMove g'.board row.toNat rcol.toNat = false)
    (hfull : g.movesMade + 1 = ROWS * COLS) :
    g'.gameOver = true ∧ g'.winner = none := by
  have hok : (dropPiece g col).2 = .ok (row, rcol) := by rw [hdrop]
  obtain ⟨hgo, hcol, hfree⟩ := dropPiece_ok_conditions hok
  have hwnone : g.winner = none := (reachable_inv hreach).2.2.2.2.2 hgo
  obtain ⟨hboard, -, -, hsnd⟩ := dropPiece_ok_fields hgo hcol hfree
  rw [hdrop] at hsnd
  simp only [Except.ok.injEq, Prod.mk.injEq] at hsnd
  obtain ⟨hrow, hrcol⟩ := hsnd
  have hg' : g' = (dropPiece g col).1 := by rw [hdrop]
  rcases dropPiece_ok_cases hgo hcol hfree with
    ⟨hwin, -, -, -⟩ | ⟨-, -, h1, h2, -⟩ | ⟨-, hnofull, -, -, -⟩
  · rw [hg', hboard, hrow, hrcol] at hnowin
    rw [hnowin] at hwin
    exact absurd hwin (by simp)
  · rw [hg']
    exact ⟨h1, by rw [h2, hwnone]⟩
  · exact absurd hfull hnofull

/-- C8 witness: the 42-cell draw game — after 41 moves the non-winning
42nd drop into column 6 finishes the game with no winner. -/
theorem claim_C8_full_board_draw_witness :
    drawEndState.gameOver = true ∧ drawEndState.winner = none :=
  claim_C8_full_board_draw drawMoves41 preDrawState drawEndState 6 0 6
    (by rfl) (by rfl) (by rfl) (by rfl)

/-- C10: in any reachable state every cell is `Empty`, `Player1` or
`Player2`; a successful drop writes only to a cell that was `Empty`, and
every non-empty cell keeps its exact value across the drop. -/
theorem claim_C10_cells_write_once (ms : List Int) (g : GameState)
    (hreach : playMoves initState ms = some g) :
    (∀ r < ROWS, ∀ c < COLS,
      getCell g.board r c = EMPTY ∨ getCell g.board r c = PLAYER1 ∨
        getCell g.board r c = PLAYER2) ∧
    ∀ (col : Int) (g' : GameState) (row rcol : Int),
      dropPiece g col = (g', .ok (row, rcol)) →
        getCell g.board row.toNat rcol.toNat = EMPTY ∧
        ∀ r < ROWS, ∀ c < COLS, getCell g.board r c ≠ EMPTY →
          getCell g'.board r c = getCell g.board r c := by
  have hinv := reachable_inv hreach
  obtain ⟨hwf, hprofile, hvals, -, -, -⟩ := hinv
  constructor
  · intro r hr c hc
    have := hvals r hr c hc
    unfold EMPTY PLAYER1 PLAYER2
    omega
  · intro col g' row rcol hdrop
    have hok : (dropPiece g col).2 = .ok (row, rcol) := by rw [hdrop]
    obtain ⟨hgo, hcol, hfree⟩ := dropPiece_ok_conditions hok
    obtain ⟨hboard, -, -, hsnd⟩ := dropPiece_ok_fields hgo hcol hfree
    rw [hdrop] at hsnd
    simp only [Except.ok.injEq, Prod.mk.injEq] at hsnd
    obtain ⟨hrow, hrcol⟩ := hsnd
    have hg' : g' = (dropPiece g col).1 := by rw [hdrop]
    have hrlt : nextRowOf g col.toNat < (ROWS : Int) :=
      (hwf.2.2.2 col.toNat (by omega)).2
    have hempty0 : getCell g.board (nextRowOf g col.toNat).toNat col.toNat = EMPTY :=
      (hprofile col.toNat (by omega) (nextRowOf g col.toNat).toNat
        (by omega)).mpr (by omega)
    have hempty : getCell g.board row.toNat rcol.toNat = EMPTY := by
      rw [hrow, hrcol]
      exact hempty0
    refine ⟨hempty, ?_⟩
    intro r hr c hc hne
    rw [hg', hboard]
    refine getCell_setCell_ne ?_
    by_contra hctr
    push_neg at hctr
    obtain ⟨h1, h2⟩ := hctr
    rw [h1, h2] at hne
    exact hne hempty0

/-- C10 witness: after one move, cell `(5,0)` holds Player 1's disc, a
second drop into column 0 lands on the empty `(4,0)`, and the occupied
`(5,0)` keeps its value across that drop. -/
theorem claim_C10_cells_write_once_witness :
    (getCell oneMoveState.board 5 0 = EMPTY ∨
      getCell oneMoveState.board 5 0 = PLAYER1 ∨
      getCell oneMoveState.board 5 0 = PLAYER2) ∧
    getCell oneMoveState.board 4 0 = EMPTY ∧
    getCell twoMoveState.board 5 0 = getCell oneMoveState.board 5 0 :=
  ⟨(claim_C10_cells_write_once [0] oneMoveState (by rfl)).1 5 (by decide) 0 (by decide),
   ((claim_C10_cells_write_once [0] oneMoveState (by rfl)).2 0 twoMoveState 4 0
      (by rfl)).1,
   ((claim_C10_cells_write_once [0] oneMoveState (by rfl)).2 0 twoMoveState 4 0
      (by rfl)).2 5 (by decide) 0 (by decide) (by decide)⟩

end ConnectFour
